/-
Verification of the cccc (Clean Claude Code Config) core against its
natural-language specification.

The Go source is shallowly embedded: pure functions become Lean functions,
filesystem-touching code becomes explicit state passing over an executable
filesystem model, fallible code returns Except.  Byte sizes and timestamps
are modelled as Nat (Go int64 values that are non-negative in every reachable
state of this program).
-/
import Mathlib

namespace Cccc

/-! ## Settings model (internal/claude/config.go) -/

/-- Permissions from config.go: three lists of opaque string entries. -/
structure Permissions where
  allow : List String
  deny : List String
  ask : List String
deriving Repr, DecidableEq

/-- Settings from config.go: wraps the permissions lists. -/
structure Settings where
  permissions : Permissions
deriving Repr, DecidableEq

/-- `diffSlice` from config.go: elements of `a` that are not in `b`.
Go returns nil for an empty `a`; a map from string to empty struct stands
in for set membership, which on lists is `b.contains`. -/
def diffSlice (a b : List String) : List String :=
  if a.isEmpty then []
  else a.filter (fun v => !(b.contains v))

/-- `Settings.Diff` from config.go: per-category `diffSlice`. -/
def Settings.Diff (s other : Settings) : Settings :=
  ⟨⟨diffSlice s.permissions.allow other.permissions.allow,
    diffSlice s.permissions.deny other.permissions.deny,
    diffSlice s.permissions.ask other.permissions.ask⟩⟩

/-- `Settings.IsEmpty` from config.go: all three lists empty. -/
def Settings.IsEmpty (s : Settings) : Bool :=
  s.permissions.allow.isEmpty && s.permissions.deny.isEmpty &&
    s.permissions.ask.isEmpty

/-! ## Dedup engine (cleaner dedup source file) -/

/-- DedupResult from the dedup source file. -/
structure DedupResult where
  localPath : String
  duplicateAllow : List String
  duplicateDeny : List String
  duplicateAsk : List String
  suggestDelete : Bool
deriving Repr, DecidableEq

/-- `findDuplicates`: entries of `local` that also exist in `global`.
Go returns nil when either list is empty. -/
def findDuplicates (lo gl : List String) : List String :=
  if lo.isEmpty || gl.isEmpty then []
  else lo.filter (fun v => gl.contains v)

/-- `removeEntries`: a new slice with the `toRemove` entries removed.
Go returns nil for an empty input slice. -/
def removeEntries (slice toRemove : List String) : List String :=
  if slice.isEmpty then []
  else slice.filter (fun v => !(toRemove.contains v))

/-- `DeduplicateConfig`: duplicates per category, plus the should-delete
decision computed from `Diff`/`IsEmpty` on the whole Settings pair. -/
def DeduplicateConfig (localPath : String) (global lo : Settings) : DedupResult :=
  { localPath := localPath
    duplicateAllow := findDuplicates lo.permissions.allow global.permissions.allow
    duplicateDeny := findDuplicates lo.permissions.deny global.permissions.deny
    duplicateAsk := findDuplicates lo.permissions.ask global.permissions.ask
    suggestDelete := (lo.Diff global).IsEmpty }

/-! ## Settings-file store (for LoadSettings / ApplyDedup)

The on-disk settings files are modelled as an association list from path to
file content.  Go's `json.Unmarshal ∘ json.MarshalIndent` round-trips the
`Settings` schema (three string lists; a nil list marshals as `null` and
unmarshals back to nil), so writing a file stores the `Settings` value
itself. -/

/-- Content found at a settings path: missing files are absent from the
store; a present file is zero-byte, valid JSON for the schema, or
malformed. -/
inductive FileContent
  | emptyFile
  | valid (s : Settings)
  | malformed
deriving Repr, DecidableEq

/-- Store of settings files: path ↦ content association list. -/
structure CFS where
  files : List (String × FileContent)
deriving Repr, DecidableEq

def CFS.lookup (cfs : CFS) (path : String) : Option FileContent :=
  (cfs.files.find? (fun e => e.1 == path)).map (·.2)

/-- `os.Stat` success for a settings path. -/
def CFS.statExists (cfs : CFS) (path : String) : Bool :=
  (cfs.lookup path).isSome

/-- `os.Remove` of a settings file. -/
def CFS.remove (cfs : CFS) (path : String) : CFS :=
  ⟨cfs.files.filter (fun e => !(e.1 == path))⟩

/-- `os.WriteFile` of a settings file (create or overwrite). -/
def CFS.write (cfs : CFS) (path : String) (c : FileContent) : CFS :=
  ⟨(path, c) :: cfs.files.filter (fun e => !(e.1 == path))⟩

/-- `LoadSettings` from config.go: a missing file and a zero-byte file both
load as empty Settings; malformed content is a hard parse error. -/
def LoadSettings (cfs : CFS) (path : String) : Except Unit Settings :=
  match cfs.lookup path with
  | none => .ok ⟨⟨[], [], []⟩⟩
  | some .emptyFile => .ok ⟨⟨[], [], []⟩⟩
  | some (.valid s) => .ok s
  | some .malformed => .error ()

/-- `ApplyDedup` from the dedup source file: no-op on dry run or missing
file; deletes the file when `suggestDelete`; otherwise re-reads the file,
strips the duplicate entries per category and rewrites it. -/
def ApplyDedup (cfs : CFS) (result : DedupResult) (dryRun : Bool) :
    Except Unit CFS :=
  if dryRun then .ok cfs
  else if !(cfs.statExists result.localPath) then .ok cfs
  else if result.suggestDelete then .ok (cfs.remove result.localPath)
  else
    match LoadSettings cfs result.localPath with
    | .error e => .error e
    | .ok s =>
      let s' : Settings :=
        ⟨⟨removeEntries s.permissions.allow result.duplicateAllow,
          removeEntries s.permissions.deny result.duplicateDeny,
          removeEntries s.permissions.ask result.duplicateAsk⟩⟩
      .ok (cfs.write result.localPath (.valid s'))

/-! ## Filesystem model (for Project.Exists, stale and orphan cleanup)

State touched through `os.Stat`, `os.Remove` and `os.RemoveAll`.  An entry
carries a directory flag, byte size, modification time and content so the
dry-run frame claim can speak about all of them; `failing` is the set of
paths on which a removal attempt fails (permission denied and the like). -/

/-- Metadata of one filesystem entry. -/
structure FMeta where
  isDir : Bool
  size : Nat
  mtime : Nat
  content : String
deriving Repr, DecidableEq

/-- Filesystem state: present entries plus the paths whose removal fails. -/
structure FS where
  entries : List (String × FMeta)
  failing : List String
deriving Repr, DecidableEq

/-- `os.Stat` success: the path has an entry. -/
def FS.statExists (fs : FS) (p : String) : Bool :=
  fs.entries.any (fun e => e.1 == p)

/-- `info.IsDir()` after a successful stat; false on a missing path. -/
def FS.isDir (fs : FS) (p : String) : Bool :=
  match fs.entries.find? (fun e => e.1 == p) with
  | some e => e.2.isDir
  | none => false

/-- Bool prefix test on character lists. -/
def listPrefix : List Char → List Char → Bool
  | [], _ => true
  | _ :: _, [] => false
  | a :: as, b :: bs => a == b && listPrefix as bs

/-- A path is the root itself or strictly beneath it. -/
def underPath (root q : String) : Bool :=
  q == root || listPrefix (root ++ "/").data q.data

/-- Two paths name distinct filesystem objects with neither beneath the
other. -/
def pathsSeparate (a b : String) : Prop :=
  a ≠ b ∧ listPrefix (a ++ "/").data b.data = false
    ∧ listPrefix (b ++ "/").data a.data = false

instance (a b : String) : Decidable (pathsSeparate a b) := by
  unfold pathsSeparate
  infer_instance

/-- `os.RemoveAll`: removes the path and everything beneath it. -/
def FS.removeAll (fs : FS) (p : String) : Except Unit FS :=
  if fs.failing.contains p then .error ()
  else .ok ⟨fs.entries.filter (fun e => !(underPath p e.1)), fs.failing⟩

/-- `os.Remove`: removes exactly the path. -/
def FS.removeFile (fs : FS) (p : String) : Except Unit FS :=
  if fs.failing.contains p then .error ()
  else .ok ⟨fs.entries.filter (fun e => !(e.1 == p)), fs.failing⟩

/-! ## Project records and stale detection (sessions.go, stale.go) -/

/-- Project from sessions.go. -/
structure Project where
  encodedName : String
  actualPath : String
  sessionIDs : List String
  totalSize : Nat
  lastUsed : Nat
  fileCount : Nat
deriving Repr, DecidableEq

/-- `Project.Exists` from sessions.go, with the filesystem state explicit:
false on an empty ActualPath, otherwise an `os.Stat` of the path. -/
def Project.existsOn (fs : FS) (p : Project) : Bool :=
  if p.actualPath = "" then false
  else fs.statExists p.actualPath

/-- `FindStaleProjects` from stale.go: the projects whose path no longer
exists. -/
def FindStaleProjects (fs : FS) (projects : List Project) : List Project :=
  projects.filter (fun p => !(p.existsOn fs))

/-- StaleResult from stale.go. -/
structure StaleResult where
  project : Project
  sizeSaved : Nat
  filesRemoved : Nat
deriving Repr, DecidableEq

/-- `CleanStaleProject` from stale.go: sizes are zeroed when the project
storage directory is already gone; dry run stops before the removal. -/
def CleanStaleProject (fs : FS) (projectsDir : String) (project : Project)
    (dryRun : Bool) : Except Unit (StaleResult × FS) :=
  let projectPath := projectsDir ++ "/" ++ project.encodedName
  if !(fs.statExists projectPath) then
    .ok (⟨project, 0, 0⟩, fs)
  else if dryRun then
    .ok (⟨project, project.totalSize, project.fileCount⟩, fs)
  else
    match fs.removeAll projectPath with
    | .error e => .error e
    | .ok fs' => .ok (⟨project, project.totalSize, project.fileCount⟩, fs')

/-! ## Orphan cleanup (orphans.go) -/

inductive OrphanType
  | emptySession
  | todo
  | fileHistory
  | sessionEnv
deriving Repr, DecidableEq

/-- OrphanResult from orphans.go. -/
structure OrphanResult where
  type : OrphanType
  path : String
  sizeSaved : Nat
deriving Repr, DecidableEq

/-- Non-dry-run loop of `CleanOrphans`: an item whose path no longer exists
gets its SizeSaved zeroed and is skipped; otherwise the file or directory
is removed; a removal error returns immediately (Go: `return results, err`)
with every remaining item left untouched.  The Bool is the returned
error. -/
def cleanOrphansLoop (fs : FS) :
    List OrphanResult → List OrphanResult × FS × Bool
  | [] => ([], fs, false)
  | o :: rest =>
    if !(fs.statExists o.path) then
      let r := cleanOrphansLoop fs rest
      ({ o with sizeSaved := 0 } :: r.1, r.2)
    else
      match (if fs.isDir o.path then fs.removeAll o.path
             else fs.removeFile o.path) with
      | .error _ => (o :: rest, fs, true)
      | .ok fs' =>
        let r := cleanOrphansLoop fs' rest
        (o :: r.1, r.2)

/-- `CleanOrphans` from orphans.go: dry run returns a copy of the input
without touching the filesystem. -/
def CleanOrphans (fs : FS) (orphans : List OrphanResult) (dryRun : Bool) :
    List OrphanResult × FS × Bool :=
  if dryRun then (orphans, fs, false) else cleanOrphansLoop fs orphans

/-! ## Apply-phase drivers with audit logging (main.go) -/

/-- Action from ui/preview.go. -/
inductive Action
  | delete
  | modify
  | create
deriving Repr, DecidableEq

/-- One audit log line (ui/audit.go): action keyword, path, size.  The
timestamp prefix is wall-clock output and is not modelled. -/
structure AuditEntry where
  action : Action
  path : String
  size : Nat
deriving Repr, DecidableEq

/-- Apply loop of `cleanProjects` in main.go: each stale project is cleaned
independently; an error is reported and the item skipped (`continue`, no
audit line); after a successful call one DELETE line is appended before the
next item.  Returns the final filesystem, the audit lines in append order,
and the total size saved. -/
def cleanProjectsApply (projectsDir : String) (fs : FS) :
    List Project → FS × List AuditEntry × Nat
  | [] => (fs, [], 0)
  | p :: rest =>
    match CleanStaleProject fs projectsDir p false with
    | .error _ => cleanProjectsApply projectsDir fs rest
    | .ok (result, fs') =>
      let t := cleanProjectsApply projectsDir fs' rest
      (t.1, ⟨.delete, p.actualPath, result.sizeSaved⟩ :: t.2.1,
        result.sizeSaved + t.2.2)

/-- Apply-and-audit phase of `cleanOrphans` in main.go: the whole batch
runs first; on a batch error the command exits without writing any audit
line; otherwise one DELETE line per result — including results whose path
was already missing — is appended after the batch. -/
def cleanOrphansApply (fs : FS) (orphans : List OrphanResult) :
    FS × List AuditEntry × Bool :=
  let r := CleanOrphans fs orphans false
  if r.2.2 then (r.2.1, [], true)
  else (r.2.1, r.1.map (fun x => ⟨.delete, x.path, x.sizeSaved⟩), false)

/-- Apply loop of `cleanConfig` in main.go: per result, an `ApplyDedup`
failure is reported and the item skipped (no audit line); success appends
one DELETE (suggestDelete) or MODIFY line before the next item. -/
def cleanConfigApply (cfs : CFS) : List DedupResult → CFS × List AuditEntry
  | [] => (cfs, [])
  | r :: rest =>
    match ApplyDedup cfs r false with
    | .error _ => cleanConfigApply cfs rest
    | .ok cfs' =>
      let t := cleanConfigApply cfs' rest
      (t.1, (if r.suggestDelete then AuditEntry.mk .delete r.localPath 0
             else AuditEntry.mk .modify r.localPath 0) :: t.2)

/-! ## Confirmation (internal/ui/confirm.go) -/

inductive ConfirmResult
  | yes
  | no
  | error
deriving Repr, DecidableEq

/-- Code points with the Unicode White_Space property: the set
`unicode.IsSpace` accepts and `strings.TrimSpace` trims. -/
def goSpaceCodes : List Nat :=
  [9, 10, 11, 12, 13, 32, 0x85, 0xA0, 0x1680,
   0x2000, 0x2001, 0x2002, 0x2003, 0x2004, 0x2005, 0x2006, 0x2007,
   0x2008, 0x2009, 0x200A, 0x2028, 0x2029, 0x202F, 0x205F, 0x3000]

def goIsSpace (c : Char) : Bool := goSpaceCodes.contains c.toNat

/-- ASCII case mapping of Go's `strings.ToLower`.  No code point outside
ASCII lowercases into ASCII, so this fragment is exact for the comparisons
against "y"/"yes". -/
def goToLowerChar (c : Char) : Char :=
  if 65 ≤ c.toNat && c.toNat ≤ 90 then Char.ofNat (c.toNat + 32) else c

def goToLower (s : String) : String := ⟨s.data.map goToLowerChar⟩

def trimChars (l : List Char) : List Char :=
  ((l.dropWhile goIsSpace).reverse.dropWhile goIsSpace).reverse

/-- `strings.TrimSpace`: drop White_Space characters from both ends. -/
def goTrimSpace (s : String) : String := ⟨trimChars s.data⟩

/-- `Confirmer.Confirm` from confirm.go.  The input is the line delivered
by `bufio.Reader.ReadString` (delimiter included), or `none` when the read
returned an error (which Go maps to ConfirmNo). -/
def Confirm (input : Option String) : ConfirmResult :=
  match input with
  | none => .no
  | some line =>
    let t := goTrimSpace (goToLower line)
    if t = "y" || t = "yes" then .yes else .no

/-- `ConfirmChanges` from confirm.go: display the preview (pure output,
omitted), accept outright on the always-confirm override, otherwise prompt
and require ConfirmYes. -/
def ConfirmChanges (input : Option String) (autoYes : Bool) : Bool :=
  if autoYes then true
  else
    match Confirm input with
    | .yes => true
    | _ => false

/-! ## Session scanner (internal/claude/sessions.go) -/

/-- One line of a session JSONL file, as seen by `ParseSessionFile`:
a zero-length line, a line `json.Unmarshal` rejects, or a parsed record
with sessionId, cwd and timestamp fields. -/
inductive SessionLine
  | blank
  | malformed
  | record (id cwd : String) (ts : Nat)
deriving Repr, DecidableEq

/-- SessionInfo from sessions.go. -/
structure SessionInfo where
  id : String
  cwd : String
  timestamp : Nat
  filePath : String
  size : Nat
  isEmpty : Bool
deriving Repr, DecidableEq

/-- The two failure conditions of `ParseSessionFile`: a JSON unmarshal
error, and the distinct `ErrNoCWD` condition. -/
inductive ParseErr
  | malformed
  | noCWD
deriving Repr, DecidableEq

/-- Scan loop of `ParseSessionFile`: skip blank lines, fail on the first
malformed line, return at the first record with a non-empty cwd, and fail
with ErrNoCWD when the file is exhausted. -/
def parseLines (path : String) (size : Nat) :
    List SessionLine → Except ParseErr SessionInfo
  | [] => .error .noCWD
  | .blank :: rest => parseLines path size rest
  | .malformed :: _ => .error .malformed
  | .record id cwd ts :: rest =>
    if cwd ≠ "" then .ok ⟨id, cwd, ts, path, size, false⟩
    else parseLines path size rest

/-- `ParseSessionFile` from sessions.go: a zero-byte file yields an
empty-file record with no parse attempted; otherwise the lines are
scanned in order. -/
def ParseSessionFile (path : String) (size : Nat) (lines : List SessionLine) :
    Except ParseErr SessionInfo :=
  if size = 0 then .ok ⟨"", "", 0, path, size, true⟩
  else parseLines path size lines

/-! ## Project registry scan (ScanProjects in sessions.go) -/

/-- `filepath.Ext`: the suffix of the name starting at its final dot;
empty when the name has no dot. -/
def goExt (name : String) : String :=
  let r := name.data.reverse
  let pre := r.takeWhile (fun c => !(c == '.'))
  if pre.length == r.length then ""
  else ⟨'.' :: pre.reverse⟩

/-- One directory entry of a project storage directory, with the parse
input of the file it names. -/
structure FileEntry where
  name : String
  isDir : Bool
  size : Nat
  lines : List SessionLine
deriving Repr, DecidableEq

/-- Per-file body of the `ScanProjects` inner loop: skip directories and
files without the .jsonl extension, skip files that fail to parse, then
accumulate size/count, and for non-empty files fill actualPath (first
wins), append a non-empty session id, and track the max timestamp. -/
def scanProjectStep (dir : String) (p : Project) (e : FileEntry) : Project :=
  if e.isDir then p
  else if goExt e.name ≠ ".jsonl" then p
  else
    match ParseSessionFile (dir ++ "/" ++ e.name) e.size e.lines with
    | .error _ => p
    | .ok info =>
      let p1 := { p with fileCount := p.fileCount + 1,
                         totalSize := p.totalSize + info.size }
      if info.isEmpty then p1
      else
        let p2 := if p1.actualPath = "" then { p1 with actualPath := info.cwd }
                  else p1
        let p3 := if info.id ≠ "" then
                    { p2 with sessionIDs := p2.sessionIDs ++ [info.id] }
                  else p2
        if info.timestamp > p3.lastUsed then { p3 with lastUsed := info.timestamp }
        else p3

/-- The `ScanProjects` body for one project directory: fold the inner loop
over the directory listing, starting from a fresh record. -/
def scanProject (projectsDir : String) (name : String)
    (files : List FileEntry) : Project :=
  files.foldl (scanProjectStep (projectsDir ++ "/" ++ name))
    { encodedName := name, actualPath := "", sessionIDs := [],
      totalSize := 0, lastUsed := 0, fileCount := 0 }

/-- The session-id contribution of one directory entry, used to state what
the scan's id list contains: the id of a non-directory `.jsonl` entry that
parses successfully to a non-empty record with a non-empty id; nothing
otherwise. -/
def sessionIdOf (dir : String) (e : FileEntry) : Option String :=
  if e.isDir then none
  else if goExt e.name ≠ ".jsonl" then none
  else
    match ParseSessionFile (dir ++ "/" ++ e.name) e.size e.lines with
    | .error _ => none
    | .ok info =>
      if info.isEmpty then none
      else if info.id ≠ "" then some info.id else none

/-! # Helper lemmas -/

theorem diffSlice_eq_filter (a b : List String) :
    diffSlice a b = a.filter (fun v => !(b.contains v)) := by
  cases a with
  | nil => simp [diffSlice]
  | cons x xs => simp [diffSlice]

theorem findDuplicates_eq_filter (lo gl : List String) :
    findDuplicates lo gl = lo.filter (fun v => gl.contains v) := by
  cases lo with
  | nil => simp [findDuplicates]
  | cons x xs =>
    cases gl with
    | nil =>
      simp only [findDuplicates, List.isEmpty_cons, List.isEmpty_nil,
        Bool.false_or]
      simp
    | cons y ys => simp [findDuplicates]

theorem removeEntries_eq_filter (slice toRemove : List String) :
    removeEntries slice toRemove
      = slice.filter (fun v => !(toRemove.contains v)) := by
  cases slice with
  | nil => simp [removeEntries]
  | cons x xs => simp [removeEntries]

theorem diffSlice_eq_nil_iff_subset (a b : List String) :
    diffSlice a b = [] ↔ ∀ x ∈ a, x ∈ b := by
  rw [diffSlice_eq_filter]
  rw [List.filter_eq_nil_iff]
  constructor
  · intro h x hx
    have := h x hx
    simpa using this
  · intro h x hx
    simpa using h x hx

theorem findDuplicates_nil_right (lo : List String) :
    findDuplicates lo [] = [] := by
  cases lo <;> simp [findDuplicates]

theorem contains_filter_of_mem (l : List String) (x : String)
    (p : String → Bool) (hx : x ∈ l) : (l.filter p).contains x = p x := by
  simp only [List.contains, List.elem_eq_mem, List.mem_filter,
    decide_eq_true_eq]
  by_cases h : p x = true
  · simp [hx, h]
  · have h' : p x = false := by revert h; cases p x <;> simp
    simp [hx, h']

theorem CFS.lookup_write_self (cfs : CFS) (path : String) (c : FileContent) :
    (cfs.write path c).lookup path = some c := by
  simp [CFS.lookup, CFS.write, List.find?]

theorem toNat_ofNat_valid (n : Nat) (h : n < 55296) :
    (Char.ofNat n).toNat = n := by
  have hv : n.isValidChar := Or.inl h
  simp only [Char.ofNat, hv, dif_pos, Char.ofNatAux, Char.toNat]
  change (UInt32.ofNatCore n _).toNat = n
  simp [UInt32.ofNatCore, UInt32.toNat]

theorem goIsSpace_toLowerChar (c : Char) :
    goIsSpace (goToLowerChar c) = goIsSpace c := by
  unfold goToLowerChar
  by_cases h : (65 ≤ c.toNat && c.toNat ≤ 90) = true
  · rw [if_pos h]
    simp only [Bool.and_eq_true, decide_eq_true_eq] at h
    have hv : (Char.ofNat (c.toNat + 32)).toNat = c.toNat + 32 :=
      toNat_ofNat_valid _ (by omega)
    have ha : goIsSpace c = false := by
      simp [goIsSpace, goSpaceCodes]
      omega
    have hb : goIsSpace (Char.ofNat (c.toNat + 32)) = false := by
      simp [goIsSpace, goSpaceCodes, hv]
      omega
    rw [ha, hb]
  · rw [if_neg h]

theorem dropWhile_map_lower (l : List Char) :
    (l.map goToLowerChar).dropWhile goIsSpace
      = (l.dropWhile goIsSpace).map goToLowerChar := by
  induction l with
  | nil => simp
  | cons c t ih =>
    simp only [List.map_cons, List.dropWhile_cons, goIsSpace_toLowerChar]
    by_cases h : goIsSpace c = true
    · simp [h, ih]
    · have h' : goIsSpace c = false := by revert h; cases goIsSpace c <;> simp
      simp [h']

theorem any_filter_keep (entries : List (String × FMeta)) (keep : String → Bool)
    (q : String) (hq : keep q = true) :
    (entries.filter (fun e => keep e.1)).any (fun e => e.1 == q)
      = entries.any (fun e => e.1 == q) := by
  induction entries with
  | nil => rfl
  | cons e t ih =>
    rw [List.filter_cons]
    by_cases h : (e.1 == q) = true
    · have hq1 : e.1 = q := eq_of_beq h
      rw [if_pos (by rw [hq1]; exact hq)]
      simp [List.any_cons, h, ih]
    · by_cases hk : keep e.1 = true
      · rw [if_pos hk]
        simp only [List.any_cons, ih]
      · rw [if_neg (by simpa using hk)]
        rw [ih]
        simp only [List.any_cons]
        rw [show (e.1 == q) = false by simpa using h]
        simp

theorem FS.removeAll_ok (fs : FS) (p : String)
    (h : fs.failing.contains p = false) :
    fs.removeAll p
      = .ok ⟨fs.entries.filter (fun e => !(underPath p e.1)), fs.failing⟩ := by
  have h' : p ∉ fs.failing := by simpa using h
  simp [FS.removeAll, h']

theorem FS.removeFile_ok (fs : FS) (p : String)
    (h : fs.failing.contains p = false) :
    fs.removeFile p
      = .ok ⟨fs.entries.filter (fun e => !(e.1 == p)), fs.failing⟩ := by
  have h' : p ∉ fs.failing := by simpa using h
  simp [FS.removeFile, h']

theorem statExists_after_keep (fs : FS) (keep : String → Bool)
    (fl : List String) (q : String) (hq : keep q = true) :
    (FS.mk (fs.entries.filter (fun e => keep e.1)) fl).statExists q
      = fs.statExists q := by
  simp only [FS.statExists]
  exact any_filter_keep fs.entries keep q hq

theorem underPath_eq_false_of_separate (a b : String) (h : pathsSeparate a b) :
    underPath a b = false := by
  obtain ⟨hne, hp1, hp2⟩ := h
  simp only [underPath, hp1, Bool.or_false]
  simp only [beq_eq_false_iff_ne, ne_eq]
  exact fun hh => hne hh.symm

/-- When every orphan path exists, none fails to remove, and no two paths
coincide or nest, the non-dry-run orphan loop removes them all and returns
the input list unchanged (no SizeSaved is zeroed) with no error. -/
theorem cleanOrphansLoop_all_ok (orphans : List OrphanResult) (fs : FS)
    (hex : ∀ o ∈ orphans, fs.statExists o.path = true)
    (hfail : ∀ o ∈ orphans, fs.failing.contains o.path = false)
    (hsep : orphans.Pairwise (fun a b => pathsSeparate a.path b.path)) :
    ∃ fs', cleanOrphansLoop fs orphans = (orphans, fs', false)
      ∧ fs'.failing = fs.failing := by
  induction orphans generalizing fs with
  | nil => exact ⟨fs, rfl, rfl⟩
  | cons o rest ih =>
    have ho : fs.statExists o.path = true := hex o (by simp)
    have hof : fs.failing.contains o.path = false := hfail o (by simp)
    obtain ⟨hsep1, hsep2⟩ := List.pairwise_cons.mp hsep
    have hunder : ∀ x ∈ rest, underPath o.path x.path = false := by
      intro x hx
      exact underPath_eq_false_of_separate _ _ (hsep1 x hx)
    by_cases hd : fs.isDir o.path = true
    · have hrem := FS.removeAll_ok fs o.path hof
      set fs2 : FS :=
        ⟨fs.entries.filter (fun e => !(underPath o.path e.1)), fs.failing⟩
        with hfs2
      have hex2 : ∀ x ∈ rest, fs2.statExists x.path = true := by
        intro x hx
        rw [hfs2]
        rw [statExists_after_keep fs (fun s => !(underPath o.path s))
          fs.failing x.path (by simp [hunder x hx])]
        exact hex x (by simp [hx])
      have hfail2 : ∀ x ∈ rest, fs2.failing.contains x.path = false := by
        intro x hx
        exact hfail x (by simp [hx])
      obtain ⟨fs', hloop, hfl⟩ := ih fs2 hex2 hfail2 hsep2
      refine ⟨fs', ?_, by rw [hfl]⟩
      show cleanOrphansLoop fs (o :: rest) = (o :: rest, fs', false)
      simp only [cleanOrphansLoop, ho, Bool.not_true, Bool.false_eq_true,
        if_false, hd, if_true, hrem, hloop]
    · have hrem := FS.removeFile_ok fs o.path hof
      set fs2 : FS :=
        ⟨fs.entries.filter (fun e => !(e.1 == o.path)), fs.failing⟩
        with hfs2
      have hex2 : ∀ x ∈ rest, fs2.statExists x.path = true := by
        intro x hx
        rw [hfs2]
        have hne : (x.path == o.path) = false := by
          have h := hunder x hx
          simp only [underPath, Bool.or_eq_false_iff] at h
          exact h.1
        rw [statExists_after_keep fs (fun s => !(s == o.path))
          fs.failing x.path (by simp [hne])]
        exact hex x (by simp [hx])
      have hfail2 : ∀ x ∈ rest, fs2.failing.contains x.path = false := by
        intro x hx
        exact hfail x (by simp [hx])
      obtain ⟨fs', hloop, hfl⟩ := ih fs2 hex2 hfail2 hsep2
      refine ⟨fs', ?_, by rw [hfl]⟩
      show cleanOrphansLoop fs (o :: rest) = (o :: rest, fs', false)
      have hd' : fs.isDir o.path = false := by simpa using hd
      simp only [cleanOrphansLoop, ho, Bool.not_true, Bool.false_eq_true,
        if_false, hd', hrem, hloop]

/-- The orphan loop returns one result per input item, whether or not it
aborted early. -/
theorem cleanOrphansLoop_length (fs : FS) (orphans : List OrphanResult) :
    (cleanOrphansLoop fs orphans).1.length = orphans.length := by
  induction orphans generalizing fs with
  | nil => rfl
  | cons o rest ih =>
    simp only [cleanOrphansLoop]
    by_cases hs : fs.statExists o.path = true
    · simp only [hs, Bool.not_true, Bool.false_eq_true, if_false]
      cases hr : (if fs.isDir o.path then fs.removeAll o.path
                  else fs.removeFile o.path) with
      | error e => simp
      | ok fs' => simp [ih]
    · have hs' : fs.statExists o.path = false := by simpa using hs
      simp [hs', ih]

/-- Trimming after lowercasing equals lowercasing after trimming: the ASCII
case map never turns a character into or out of the White_Space set. -/
theorem goTrimSpace_goToLower_comm (s : String) :
    goTrimSpace (goToLower s) = goToLower (goTrimSpace s) := by
  cases s with
  | mk data =>
    show String.mk (trimChars (data.map goToLowerChar))
      = String.mk ((trimChars data).map goToLowerChar)
    unfold trimChars
    rw [dropWhile_map_lower, ← List.map_reverse, dropWhile_map_lower,
      ← List.map_reverse]

theorem parseLines_append_skippable (path : String) (size : Nat)
    (pre : List SessionLine)
    (hpre : ∀ l ∈ pre, l = .blank ∨ ∃ i t, l = SessionLine.record i "" t)
    (tail : List SessionLine) :
    parseLines path size (pre ++ tail) = parseLines path size tail := by
  induction pre with
  | nil => rfl
  | cons l pre' ih =>
    have hrest : ∀ x ∈ pre', x = .blank ∨ ∃ i t, x = SessionLine.record i "" t :=
      fun x hx => hpre x (by simp [hx])
    rcases hpre l (by simp) with hb | ⟨i, t, hr⟩
    · subst hb
      simpa [parseLines] using ih hrest
    · subst hr
      show parseLines path size (SessionLine.record i "" t :: (pre' ++ tail))
        = parseLines path size tail
      simp only [parseLines]
      rw [if_neg (by simp)]
      exact ih hrest

theorem scanProjectStep_sessionIDs (dir : String) (p : Project) (e : FileEntry) :
    (scanProjectStep dir p e).sessionIDs
      = p.sessionIDs ++ (sessionIdOf dir e).toList := by
  unfold scanProjectStep sessionIdOf
  by_cases hd : e.isDir = true
  · simp [hd]
  · by_cases hj : goExt e.name = ".jsonl"
    · cases hparse : ParseSessionFile (dir ++ "/" ++ e.name) e.size e.lines with
      | error err => simp [hd, hj, hparse]
      | ok info =>
        by_cases he : info.isEmpty = true
        · simp [hd, hj, hparse, he]
        · by_cases hid : info.id ≠ ""
          all_goals by_cases hap : p.actualPath = ""
          all_goals simp [hd, hj, hparse, he, hid, hap]
          all_goals split <;> rfl
    · simp [hd, hj]

theorem foldl_scanProjectStep_sessionIDs (dir : String)
    (files : List FileEntry) (p : Project) :
    (files.foldl (scanProjectStep dir) p).sessionIDs
      = p.sessionIDs ++ files.filterMap (sessionIdOf dir) := by
  induction files generalizing p with
  | nil => simp
  | cons e t ih =>
    simp only [List.foldl_cons, List.filterMap_cons]
    cases h : sessionIdOf dir e with
    | none =>
      rw [ih, scanProjectStep_sessionIDs]
      simp [h]
    | some i =>
      rw [ih, scanProjectStep_sessionIDs]
      simp [h]

/-! # Claim theorems: dry run, apply independence, audit logging -/

/-- C3 fails on the code: for a candidate whose path is already missing at
apply time, dry-run orphan cleanup reports the detected size while the
non-dry-run apply reports zero, so the two reports differ (the non-dry-run
state is nevertheless unchanged here). -/
theorem C3_counterexample :
    (CleanOrphans ⟨[], []⟩ [⟨.todo, "/gone", 5⟩] true).1.map
        OrphanResult.sizeSaved = [5]
    ∧ (CleanOrphans ⟨[], []⟩ [⟨.todo, "/gone", 5⟩] false).1.map
        OrphanResult.sizeSaved = [0]
    ∧ (CleanOrphans ⟨[], []⟩ [⟨.todo, "/gone", 5⟩] false).2.1 = ⟨[], []⟩ := by
  exact ⟨rfl, rfl, rfl⟩

/-- C3 amended: dry runs of all three apply operations return the
filesystem state — existence, content, modification times — unchanged, and
dry-run orphan cleanup reports exactly the detected sizes; the non-dry-run
reports coincide with the dry-run reports provided every candidate path
exists at apply time, no removal fails, and no candidate path coincides
with or lies beneath another. -/
theorem C3_dry_run_frame_amended (fs : FS) (dir : String) (p : Project)
    (orphans : List OrphanResult) (cfs : CFS) (r : DedupResult)
    (hex : ∀ o ∈ orphans, fs.statExists o.path = true)
    (hfail : ∀ o ∈ orphans, fs.failing.contains o.path = false)
    (hsep : orphans.Pairwise (fun a b => pathsSeparate a.path b.path))
    (hpfail : fs.failing.contains (dir ++ "/" ++ p.encodedName) = false) :
    CleanOrphans fs orphans true = (orphans, fs, false)
    ∧ ApplyDedup cfs r true = .ok cfs
    ∧ (∃ res fs', CleanStaleProject fs dir p true = .ok (res, fs)
        ∧ CleanStaleProject fs dir p false = .ok (res, fs'))
    ∧ (∃ fs', CleanOrphans fs orphans false = (orphans, fs', false)) := by
  refine ⟨rfl, rfl, ?_, ?_⟩
  · by_cases hstat : fs.statExists (dir ++ "/" ++ p.encodedName) = true
    · refine ⟨⟨p, p.totalSize, p.fileCount⟩,
        ⟨fs.entries.filter
          (fun e => !(underPath (dir ++ "/" ++ p.encodedName) e.1)),
         fs.failing⟩, ?_, ?_⟩
      · simp [CleanStaleProject, hstat]
      · simp [CleanStaleProject, hstat, FS.removeAll_ok fs _ hpfail]
    · have hstat' : fs.statExists (dir ++ "/" ++ p.encodedName) = false := by
        simpa using hstat
      exact ⟨⟨p, 0, 0⟩, fs, by simp [CleanStaleProject, hstat'],
        by simp [CleanStaleProject, hstat']⟩
  · obtain ⟨fs', hloop, -⟩ := cleanOrphansLoop_all_ok orphans fs hex hfail hsep
    exact ⟨fs', by simp [CleanOrphans, hloop]⟩

/-- Closed instance of C3 amended: two separate existing candidates are
reported identically by dry run and actual apply. -/
theorem C3_dry_run_frame_amended_witness :
    CleanOrphans ⟨[("/t/a.json", ⟨false, 3, 1, "x"⟩), ("/t/h", ⟨true, 0, 2, ""⟩)], []⟩
        [⟨.todo, "/t/a.json", 3⟩, ⟨.fileHistory, "/t/h", 7⟩] true
      = ([⟨.todo, "/t/a.json", 3⟩, ⟨.fileHistory, "/t/h", 7⟩],
         ⟨[("/t/a.json", ⟨false, 3, 1, "x"⟩), ("/t/h", ⟨true, 0, 2, ""⟩)], []⟩, false)
    ∧ ∃ fs', CleanOrphans
        ⟨[("/t/a.json", ⟨false, 3, 1, "x"⟩), ("/t/h", ⟨true, 0, 2, ""⟩)], []⟩
        [⟨.todo, "/t/a.json", 3⟩, ⟨.fileHistory, "/t/h", 7⟩] false
      = ([⟨.todo, "/t/a.json", 3⟩, ⟨.fileHistory, "/t/h", 7⟩], fs', false) := by
  have h := C3_dry_run_frame_amended
    ⟨[("/t/a.json", ⟨false, 3, 1, "x"⟩), ("/t/h", ⟨true, 0, 2, ""⟩)], []⟩
    "/pp" ⟨"-x", "/w", [], 5, 0, 2⟩
    [⟨.todo, "/t/a.json", 3⟩, ⟨.fileHistory, "/t/h", 7⟩]
    ⟨[]⟩ ⟨"l", [], [], [], false⟩
    (by decide) (by decide) (by decide) (by decide)
  exact ⟨h.1, h.2.2.2⟩

/-- C6 fails on the code: in orphan cleanup the first failing removal
aborts the whole batch — the remaining item here is removable and still
present afterwards, yet was never attempted. -/
theorem C6_counterexample :
    (CleanOrphans ⟨[("/a", ⟨false, 1, 0, ""⟩), ("/b", ⟨false, 2, 0, ""⟩)], ["/a"]⟩
        [⟨.todo, "/a", 1⟩, ⟨.todo, "/b", 2⟩] false).2.2 = true
    ∧ (CleanOrphans ⟨[("/a", ⟨false, 1, 0, ""⟩), ("/b", ⟨false, 2, 0, ""⟩)], ["/a"]⟩
        [⟨.todo, "/a", 1⟩, ⟨.todo, "/b", 2⟩] false).2.1.statExists "/b" = true
    ∧ (FS.mk [("/a", ⟨false, 1, 0, ""⟩), ("/b", ⟨false, 2, 0, ""⟩)]
        ["/a"]).failing.contains "/b" = false := by
  exact ⟨rfl, rfl, rfl⟩

/-- C6 amended: stale-project cleanup and config dedup attempt each item
independently, skipping a failing item and continuing; orphan cleanup
instead aborts on the first failing removal, returning the current state
(earlier removals kept, later items unattempted). -/
theorem C6_apply_independence_amended (dir : String) (fs : FS) (p : Project)
    (prest : List Project) (cfs : CFS) (r : DedupResult)
    (drest : List DedupResult) (o : OrphanResult)
    (orest : List OrphanResult) :
    (CleanStaleProject fs dir p false = .error () →
      cleanProjectsApply dir fs (p :: prest) = cleanProjectsApply dir fs prest)
    ∧ (ApplyDedup cfs r false = .error () →
      cleanConfigApply cfs (r :: drest) = cleanConfigApply cfs drest)
    ∧ (fs.statExists o.path = true → fs.failing.contains o.path = true →
      cleanOrphansLoop fs (o :: orest) = (o :: orest, fs, true)) := by
  refine ⟨?_, ?_, ?_⟩
  · intro h
    simp [cleanProjectsApply, h]
  · intro h
    simp [cleanConfigApply, h]
  · intro h1 h2
    have h2' : o.path ∈ fs.failing := by simpa using h2
    by_cases hd : fs.isDir o.path = true
    · simp [cleanOrphansLoop, h1, hd, FS.removeAll, h2']
    · have hd' : fs.isDir o.path = false := by simpa using hd
      simp [cleanOrphansLoop, h1, hd', FS.removeFile, h2']

/-- Closed instance of C6 amended: a failing stale-project removal is
skipped and the loop continues; a failing orphan removal aborts with the
remaining item untouched. -/
theorem C6_apply_independence_amended_witness :
    cleanProjectsApply "d" ⟨[("d/n", ⟨true, 4, 0, ""⟩)], ["d/n"]⟩
        [⟨"n", "/w", [], 5, 0, 1⟩]
      = cleanProjectsApply "d" ⟨[("d/n", ⟨true, 4, 0, ""⟩)], ["d/n"]⟩ []
    ∧ cleanOrphansLoop
        ⟨[("/a", ⟨false, 1, 0, ""⟩), ("/b", ⟨false, 2, 0, ""⟩)], ["/a"]⟩
        [⟨.todo, "/a", 1⟩, ⟨.todo, "/b", 2⟩]
      = ([⟨.todo, "/a", 1⟩, ⟨.todo, "/b", 2⟩],
         ⟨[("/a", ⟨false, 1, 0, ""⟩), ("/b", ⟨false, 2, 0, ""⟩)], ["/a"]⟩,
         true) := by
  have h1 := C6_apply_independence_amended "d"
    ⟨[("d/n", ⟨true, 4, 0, ""⟩)], ["d/n"]⟩ ⟨"n", "/w", [], 5, 0, 1⟩ []
    ⟨[]⟩ ⟨"l", [], [], [], false⟩ [] ⟨.todo, "/a", 1⟩ []
  have h2 := C6_apply_independence_amended "d"
    ⟨[("/a", ⟨false, 1, 0, ""⟩), ("/b", ⟨false, 2, 0, ""⟩)], ["/a"]⟩
    ⟨"n", "/w", [], 5, 0, 1⟩ [] ⟨[]⟩ ⟨"l", [], [], [], false⟩ []
    ⟨.todo, "/a", 1⟩ [⟨.todo, "/b", 2⟩]
  exact ⟨h1.1 rfl, h2.2.2 (by decide) (by decide)⟩

/-- C7 fails on the code: in orphan cleanup an item that was skipped
(path already missing, nothing deleted) still gets an audit line; and when
a later item's removal fails, deletions already applied get no audit line
at all. -/
theorem C7_counterexample :
    (cleanOrphansApply ⟨[], []⟩ [⟨.todo, "/gone", 5⟩]).2.1
      = [⟨.delete, "/gone", 0⟩]
    ∧ (cleanOrphansApply ⟨[], []⟩ [⟨.todo, "/gone", 5⟩]).1 = ⟨[], []⟩
    ∧ (cleanOrphansApply
        ⟨[("/x", ⟨false, 1, 0, ""⟩), ("/y", ⟨false, 2, 0, ""⟩)], ["/y"]⟩
        [⟨.todo, "/x", 1⟩, ⟨.todo, "/y", 2⟩]).2.1 = []
    ∧ (cleanOrphansApply
        ⟨[("/x", ⟨false, 1, 0, ""⟩), ("/y", ⟨false, 2, 0, ""⟩)], ["/y"]⟩
        [⟨.todo, "/x", 1⟩, ⟨.todo, "/y", 2⟩]).1.statExists "/x" = false := by
  exact ⟨rfl, rfl, rfl, rfl⟩

/-- C7 amended: in stale-project and config cleanup one audit line is
appended per apply call that returns success — including no-op calls whose
target was already missing — before the next item, and a failing call
appends none; in orphan cleanup the lines are all appended after the whole
batch, one per result including skipped items, and none at all when the
batch aborted with an error. -/
theorem C7_audit_logging_amended (dir : String) (fs fs2 : FS) (p : Project)
    (res : StaleResult) (prest : List Project) (cfs cfs2 : CFS)
    (r : DedupResult) (drest : List DedupResult)
    (orphans : List OrphanResult) :
    (CleanStaleProject fs dir p false = .ok (res, fs2) →
      cleanProjectsApply dir fs (p :: prest)
        = ((cleanProjectsApply dir fs2 prest).1,
           ⟨.delete, p.actualPath, res.sizeSaved⟩
             :: (cleanProjectsApply dir fs2 prest).2.1,
           res.sizeSaved + (cleanProjectsApply dir fs2 prest).2.2))
    ∧ (CleanStaleProject fs dir p false = .error () →
      cleanProjectsApply dir fs (p :: prest) = cleanProjectsApply dir fs prest)
    ∧ (ApplyDedup cfs r false = .ok cfs2 →
      cleanConfigApply cfs (r :: drest)
        = ((cleanConfigApply cfs2 drest).1,
           (if r.suggestDelete then AuditEntry.mk .delete r.localPath 0
            else AuditEntry.mk .modify r.localPath 0)
             :: (cleanConfigApply cfs2 drest).2))
    ∧ (ApplyDedup cfs r false = .error () →
      cleanConfigApply cfs (r :: drest) = cleanConfigApply cfs drest)
    ∧ ((CleanOrphans fs orphans false).2.2 = false →
      (cleanOrphansApply fs orphans).2.1
        = (CleanOrphans fs orphans false).1.map
            (fun x => ⟨.delete, x.path, x.sizeSaved⟩)
      ∧ (cleanOrphansApply fs orphans).2.1.length = orphans.length)
    ∧ ((CleanOrphans fs orphans false).2.2 = true →
      (cleanOrphansApply fs orphans).2.1 = []) := by
  refine ⟨?_, ?_, ?_, ?_, ?_, ?_⟩
  · intro h
    simp [cleanProjectsApply, h]
  · intro h
    simp [cleanProjectsApply, h]
  · intro h
    simp [cleanConfigApply, h]
  · intro h
    simp [cleanConfigApply, h]
  · intro h
    refine ⟨by simp [cleanOrphansApply, h], ?_⟩
    simp only [cleanOrphansApply, h, Bool.false_eq_true, if_false,
      List.length_map]
    simpa [CleanOrphans] using cleanOrphansLoop_length fs orphans
  · intro h
    simp [cleanOrphansApply, h]

/-- Closed instance of C7 amended: a successful stale-project removal is
logged with the project's path and size before the (empty) rest, and a
fully-skipped orphan batch still logs one line per item. -/
theorem C7_audit_logging_amended_witness :
    (cleanProjectsApply "d" ⟨[("d/n", ⟨true, 4, 0, ""⟩)], []⟩
        [⟨"n", "/w", [], 5, 0, 1⟩]).2.1
      = [⟨.delete, "/w", 5⟩]
    ∧ (cleanOrphansApply ⟨[], []⟩ [⟨.todo, "/gone", 5⟩]).2.1.length = 1 := by
  have h1 := (C7_audit_logging_amended "d" ⟨[("d/n", ⟨true, 4, 0, ""⟩)], []⟩
    ⟨[], []⟩ ⟨"n", "/w", [], 5, 0, 1⟩ ⟨⟨"n", "/w", [], 5, 0, 1⟩, 5, 1⟩ []
    ⟨[]⟩ ⟨[]⟩ ⟨"l", [], [], [], false⟩ [] []).1 rfl
  have h2 := (C7_audit_logging_amended "d" ⟨[], []⟩ ⟨[], []⟩
    ⟨"n", "/w", [], 5, 0, 1⟩ ⟨⟨"n", "/w", [], 5, 0, 1⟩, 5, 1⟩ []
    ⟨[]⟩ ⟨[]⟩ ⟨"l", [], [], [], false⟩ []
    [⟨.todo, "/gone", 5⟩]).2.2.2.2.1 (by decide)
  refine ⟨?_, h2.2⟩
  rw [h1]
  rfl

/-! # Claim theorems: session scanner and project registry -/

/-- C8: for a non-empty session file, the first line that parses and
carries a non-empty working directory supplies the record — whatever lines
follow it; a malformed line reached first fails with the parse error; and
a file of only blank or empty-cwd lines fails with the distinct no-cwd
condition. -/
theorem C8_parse_session_file (path : String) (size : Nat)
    (pre rest : List SessionLine) (id cwd : String) (ts : Nat)
    (hsize : size ≠ 0)
    (hpre : ∀ l ∈ pre, l = .blank ∨ ∃ i t, l = SessionLine.record i "" t) :
    (cwd ≠ "" →
      ParseSessionFile path size (pre ++ SessionLine.record id cwd ts :: rest)
        = .ok ⟨id, cwd, ts, path, size, false⟩)
    ∧ ParseSessionFile path size (pre ++ SessionLine.malformed :: rest)
        = .error .malformed
    ∧ ParseSessionFile path size pre = .error .noCWD := by
  unfold ParseSessionFile
  simp only [if_neg hsize]
  refine ⟨?_, ?_, ?_⟩
  · intro hcwd
    rw [parseLines_append_skippable path size pre hpre]
    simp only [parseLines]
    rw [if_pos hcwd]
  · rw [parseLines_append_skippable path size pre hpre]
    rfl
  · have h := parseLines_append_skippable path size pre hpre []
    rw [List.append_nil] at h
    rw [h]
    rfl

/-- Closed instance of C8: a blank line and an empty-cwd record are passed
over, the record with cwd `/w` wins even with a malformed line after it,
and the same prefix alone is ErrNoCWD. -/
theorem C8_parse_session_file_witness :
    ParseSessionFile "f.jsonl" 10
        [.blank, .record "a" "" 1, .record "s" "/w" 5, .malformed]
      = .ok ⟨"s", "/w", 5, "f.jsonl", 10, false⟩
    ∧ ParseSessionFile "f.jsonl" 10 [.blank, .record "a" "" 1]
      = .error .noCWD := by
  have h := C8_parse_session_file "f.jsonl" 10 [.blank, .record "a" "" 1]
    [.malformed] "s" "/w" 5 (by decide)
    (by
      intro l hl
      simp only [List.mem_cons, List.not_mem_nil, or_false] at hl
      rcases hl with rfl | rfl
      · exact Or.inl rfl
      · exact Or.inr ⟨"a", 1, rfl⟩)
  exact ⟨h.1 (by decide), h.2.2⟩

/-- C9 fails on the code: `ScanProjects` appends session ids with no
duplicate check, so two session files carrying the same sessionId yield a
duplicated entry in the record's id list. -/
theorem C9_counterexample :
    (scanProject "d" "p"
        [⟨"a.jsonl", false, 10, [.record "s1" "/w" 1]⟩,
         ⟨"b.jsonl", false, 10, [.record "s1" "/w" 2]⟩]).sessionIDs
      = ["s1", "s1"]
    ∧ ¬ (scanProject "d" "p"
        [⟨"a.jsonl", false, 10, [.record "s1" "/w" 1]⟩,
         ⟨"b.jsonl", false, 10, [.record "s1" "/w" 2]⟩]).sessionIDs.Nodup := by
  exact ⟨by decide, by decide⟩

/-- C9 amended: the scanned record's session-id list holds, in
directory-listing order, the id of every non-directory `.jsonl` entry that
parses to a non-empty record with a non-empty id — one entry per such file,
with no deduplication. -/
theorem C9_session_ids_amended (projectsDir name : String)
    (files : List FileEntry) :
    (scanProject projectsDir name files).sessionIDs
      = files.filterMap (sessionIdOf (projectsDir ++ "/" ++ name)) := by
  unfold scanProject
  rw [foldl_scanProjectStep_sessionIDs]
  rfl

/-! # Claim theorems: confirmation -/

/-- C2: the confirmation returns confirm exactly when a line was read and
its trimmed, lowercased form is "y" or "yes"; a read failure yields
decline (never the error result); and `ConfirmChanges` with the
always-confirm override accepts whatever the input is. -/
theorem C2_confirmation (input : Option String) (autoYes : Bool) :
    (Confirm input = ConfirmResult.yes ↔
      ∃ s, input = some s ∧
        (goToLower (goTrimSpace s) = "y" ∨ goToLower (goTrimSpace s) = "yes"))
    ∧ Confirm none = ConfirmResult.no
    ∧ ConfirmChanges input true = true
    ∧ (ConfirmChanges input autoYes = true ↔
        (autoYes = true ∨ Confirm input = ConfirmResult.yes)) := by
  refine ⟨?_, rfl, rfl, ?_⟩
  · cases input with
    | none => simp [Confirm]
    | some s =>
      have hcomm := goTrimSpace_goToLower_comm s
      simp only [Confirm]
      by_cases hy : goTrimSpace (goToLower s) = "y"
          ∨ goTrimSpace (goToLower s) = "yes"
      · rw [if_pos (by simp only [Bool.or_eq_true, decide_eq_true_eq]; exact hy)]
        simp only [true_iff]
        refine ⟨s, rfl, ?_⟩
        rw [← hcomm]
        exact hy
      · rw [if_neg (by simp only [Bool.or_eq_true, decide_eq_true_eq]; exact hy)]
        constructor
        · intro h
          exact absurd h (by decide)
        · rintro ⟨s', heq, hd⟩
          injection heq with heq'
          subst heq'
          rw [← hcomm] at hd
          exact absurd hd hy
  · cases autoYes with
    | true => simp [ConfirmChanges]
    | false =>
      cases h : Confirm input <;> simp [ConfirmChanges, h]

/-! # Claim theorems: stale detector -/

/-- C1: a project record with an empty actual-path never exists, whatever
its other fields and whatever the filesystem state; `FindStaleProjects`
returns exactly the sublist of records failing the existence check, in
input order; and running it twice on the same input gives the same
result. -/
theorem C1_stale_detector (fs : FS) (p : Project) (ps : List Project) :
    (p.actualPath = "" → p.existsOn fs = false)
    ∧ (∀ q, q ∈ FindStaleProjects fs ps ↔ q ∈ ps ∧ q.existsOn fs = false)
    ∧ (FindStaleProjects fs ps).Sublist ps
    ∧ FindStaleProjects fs (FindStaleProjects fs ps)
        = FindStaleProjects fs ps := by
  refine ⟨?_, ?_, List.filter_sublist ps, ?_⟩
  · intro h
    simp [Project.existsOn, h]
  · intro q
    simp [FindStaleProjects, List.mem_filter]
  · unfold FindStaleProjects
    rw [List.filter_filter]
    refine List.filter_congr ?_
    intro q hq
    cases h : q.existsOn fs <;> simp

/-- Closed instance of C1: a record with empty actual-path is stale even on
a filesystem where some other path exists, and the detector is idempotent
on a concrete mixed list. -/
theorem C1_stale_detector_witness :
    Project.existsOn ⟨[("/home/u/proj", ⟨true, 0, 0, ""⟩)], []⟩
      ⟨"-home-u-x", "", [], 3, 7, 1⟩ = false
    ∧ FindStaleProjects ⟨[("/home/u/proj", ⟨true, 0, 0, ""⟩)], []⟩
        (FindStaleProjects ⟨[("/home/u/proj", ⟨true, 0, 0, ""⟩)], []⟩
          [⟨"-home-u-x", "", [], 3, 7, 1⟩, ⟨"-home-u-proj", "/home/u/proj", [], 1, 2, 1⟩])
      = FindStaleProjects ⟨[("/home/u/proj", ⟨true, 0, 0, ""⟩)], []⟩
          [⟨"-home-u-x", "", [], 3, 7, 1⟩, ⟨"-home-u-proj", "/home/u/proj", [], 1, 2, 1⟩] := by
  have h := C1_stale_detector ⟨[("/home/u/proj", ⟨true, 0, 0, ""⟩)], []⟩
    ⟨"-home-u-x", "", [], 3, 7, 1⟩
    [⟨"-home-u-x", "", [], 3, 7, 1⟩, ⟨"-home-u-proj", "/home/u/proj", [], 1, 2, 1⟩]
  exact ⟨h.1 rfl, h.2.2.2⟩

/-! # Claim theorems: dedup engine -/

/-- C4: `DeduplicateConfig` sets `SuggestDelete` iff, for each of the three
categories independently, every local entry appears verbatim in the global
list (i.e. the per-category set difference L − G is empty); and when the
global settings have no entries, no local entry is reported as a
duplicate. -/
theorem C4_dedup_should_delete (path : String) (G L : Settings) :
    ((DeduplicateConfig path G L).suggestDelete = true ↔
      ((∀ x ∈ L.permissions.allow, x ∈ G.permissions.allow) ∧
       (∀ x ∈ L.permissions.deny, x ∈ G.permissions.deny) ∧
       (∀ x ∈ L.permissions.ask, x ∈ G.permissions.ask)))
    ∧ (G.IsEmpty = true →
        (DeduplicateConfig path G L).duplicateAllow = [] ∧
        (DeduplicateConfig path G L).duplicateDeny = [] ∧
        (DeduplicateConfig path G L).duplicateAsk = []) := by
  constructor
  · simp only [DeduplicateConfig, Settings.Diff, Settings.IsEmpty,
      Bool.and_eq_true, List.isEmpty_iff]
    rw [diffSlice_eq_nil_iff_subset, diffSlice_eq_nil_iff_subset,
      diffSlice_eq_nil_iff_subset]
    tauto
  · intro hG
    simp only [Settings.IsEmpty, Bool.and_eq_true, List.isEmpty_iff] at hG
    obtain ⟨⟨h1, h2⟩, h3⟩ := hG
    simp [DeduplicateConfig, h1, h2, h3, findDuplicates_nil_right]

/-- Closed instance of C4 at concrete settings. -/
theorem C4_dedup_should_delete_witness :
    (DeduplicateConfig "p" ⟨⟨[], [], []⟩⟩
        ⟨⟨["Bash(make:*)"], [], []⟩⟩).duplicateAllow = [] ∧
    (DeduplicateConfig "p" ⟨⟨["a"], [], []⟩⟩
        ⟨⟨["a"], [], []⟩⟩).suggestDelete = true := by
  refine ⟨(C4_dedup_should_delete "p" ⟨⟨[], [], []⟩⟩
    ⟨⟨["Bash(make:*)"], [], []⟩⟩).2 (by decide) |>.1, ?_⟩
  exact (C4_dedup_should_delete "p" ⟨⟨["a"], [], []⟩⟩
    ⟨⟨["a"], [], []⟩⟩).1.mpr (by decide)

/-- C10: for every pair of lists, `findDuplicates` and `diffSlice` split the
local list — every element goes, with multiplicity, to exactly one of the
two, both preserve the original relative order (sublists), and removing the
computed duplicates yields exactly the set-difference list. -/
theorem C10_find_duplicates_diff_partition (lo gl : List String) :
    (∀ x : String,
      (findDuplicates lo gl).count x + (diffSlice lo gl).count x = lo.count x)
    ∧ (findDuplicates lo gl).Sublist lo
    ∧ (diffSlice lo gl).Sublist lo
    ∧ (∀ x, x ∈ findDuplicates lo gl → x ∉ diffSlice lo gl)
    ∧ removeEntries lo (findDuplicates lo gl) = diffSlice lo gl := by
  rw [findDuplicates_eq_filter, diffSlice_eq_filter, removeEntries_eq_filter]
  refine ⟨?_, List.filter_sublist lo, List.filter_sublist lo, ?_, ?_⟩
  · intro x
    induction lo with
    | nil => simp
    | cons a l ih =>
      simp only [List.filter_cons]
      by_cases h : gl.contains a = true
      · rw [if_pos h, if_neg (by rw [h]; decide)]
        rw [List.count_cons, List.count_cons]
        omega
      · have h' : gl.contains a = false := by
          revert h; cases gl.contains a <;> simp
        rw [if_neg (by rw [h']; decide), if_pos (by rw [h']; decide)]
        rw [List.count_cons, List.count_cons]
        omega
  · intro x hdup hdiff
    have h1 : gl.contains x = true := (List.mem_filter.mp hdup).2
    have h2 : (!(gl.contains x)) = true := (List.mem_filter.mp hdiff).2
    rw [h1] at h2
    simp at h2
  · refine List.filter_congr ?_
    intro x hx
    rw [contains_filter_of_mem lo x (fun v => gl.contains v) hx]

/-- Closed instance of C10 at concrete lists. -/
theorem C10_find_duplicates_diff_partition_witness :
    removeEntries ["a", "b", "a"] (findDuplicates ["a", "b", "a"] ["a"])
      = diffSlice ["a", "b", "a"] ["a"]
    ∧ ("a" ∉ diffSlice ["a", "b", "a"] ["a"])
    ∧ (findDuplicates ["a", "b", "a"] ["a"]).count "a"
        + (diffSlice ["a", "b", "a"] ["a"]).count "a" = 2 := by
  have h := C10_find_duplicates_diff_partition ["a", "b", "a"] ["a"]
  refine ⟨h.2.2.2.2, h.2.2.2.1 "a" (by decide), ?_⟩
  have := h.1 "a"
  simpa using this

/-- C5: applying a non-delete dedup result to an existing local settings
file and loading the file again yields exactly the original local entries
minus the computed duplicate entries, each category keeping the original
relative order of the retained entries. -/
theorem C5_apply_dedup_round_trip (cfs : CFS) (r : DedupResult) (L : Settings)
    (hfile : cfs.lookup r.localPath = some (.valid L))
    (hkeep : r.suggestDelete = false) :
    ∃ cfs', ApplyDedup cfs r false = .ok cfs' ∧
      ∃ S, LoadSettings cfs' r.localPath = .ok S ∧
        S.permissions.allow
          = L.permissions.allow.filter (fun v => !(r.duplicateAllow.contains v)) ∧
        S.permissions.deny
          = L.permissions.deny.filter (fun v => !(r.duplicateDeny.contains v)) ∧
        S.permissions.ask
          = L.permissions.ask.filter (fun v => !(r.duplicateAsk.contains v)) ∧
        S.permissions.allow.Sublist L.permissions.allow ∧
        S.permissions.deny.Sublist L.permissions.deny ∧
        S.permissions.ask.Sublist L.permissions.ask := by
  have hstat : cfs.statExists r.localPath = true := by
    simp [CFS.statExists, hfile]
  have hload : LoadSettings cfs r.localPath = .ok L := by
    simp [LoadSettings, hfile]
  refine ⟨cfs.write r.localPath (.valid
      ⟨⟨removeEntries L.permissions.allow r.duplicateAllow,
        removeEntries L.permissions.deny r.duplicateDeny,
        removeEntries L.permissions.ask r.duplicateAsk⟩⟩), ?_, ?_⟩
  · simp [ApplyDedup, hstat, hkeep, hload]
  · refine ⟨⟨⟨removeEntries L.permissions.allow r.duplicateAllow,
        removeEntries L.permissions.deny r.duplicateDeny,
        removeEntries L.permissions.ask r.duplicateAsk⟩⟩,
      ?_, ?_, ?_, ?_, ?_, ?_, ?_⟩
    · simp only [LoadSettings, CFS.lookup_write_self]
    · exact removeEntries_eq_filter _ _
    · exact removeEntries_eq_filter _ _
    · exact removeEntries_eq_filter _ _
    · show (removeEntries L.permissions.allow r.duplicateAllow).Sublist
        L.permissions.allow
      rw [removeEntries_eq_filter]
      exact List.filter_sublist _
    · show (removeEntries L.permissions.deny r.duplicateDeny).Sublist
        L.permissions.deny
      rw [removeEntries_eq_filter]
      exact List.filter_sublist _
    · show (removeEntries L.permissions.ask r.duplicateAsk).Sublist
        L.permissions.ask
      rw [removeEntries_eq_filter]
      exact List.filter_sublist _

/-- Closed instance of C5: the spec's scenario — global allow
`Bash(git:*)`, local allow `Bash(git:*), Bash(make:*)` — applied on a
one-file store. -/
theorem C5_apply_dedup_round_trip_witness :
    ∃ cfs', ApplyDedup ⟨[("l", .valid ⟨⟨["Bash(git:*)", "Bash(make:*)"], [], []⟩⟩)]⟩
        (DeduplicateConfig "l" ⟨⟨["Bash(git:*)"], [], []⟩⟩
          ⟨⟨["Bash(git:*)", "Bash(make:*)"], [], []⟩⟩) false = .ok cfs' ∧
      ∃ S, LoadSettings cfs' "l" = .ok S ∧
        S.permissions.allow = ["Bash(make:*)"] := by
  have h := C5_apply_dedup_round_trip
    ⟨[("l", .valid ⟨⟨["Bash(git:*)", "Bash(make:*)"], [], []⟩⟩)]⟩
    (DeduplicateConfig "l" ⟨⟨["Bash(git:*)"], [], []⟩⟩
      ⟨⟨["Bash(git:*)", "Bash(make:*)"], [], []⟩⟩)
    ⟨⟨["Bash(git:*)", "Bash(make:*)"], [], []⟩⟩ (by decide) (by decide)
  obtain ⟨cfs', happ, S, hload, hallow, -⟩ := h
  refine ⟨cfs', happ, S, hload, ?_⟩
  rw [hallow]
  decide

end Cccc
